import Mathlib

/-!
Verification of the request-dispatch engine, rule handlers, cache store and
inspector journal of the `nxy` intercepting proxy, as a shallow embedding.

JavaScript strings are modelled as `List Char` (`JStr`).  Platform functions
used by the source (`new URL`, `crypto` md5, `fs`, timers) are modelled
explicitly where their behaviour matters; md5 is kept as a parameter since
only its output's presence in cache keys is relevant.
-/

set_option linter.unusedVariables false

namespace NxyProxy

/-- JavaScript strings, modelled as lists of characters. -/
abbrev JStr := List Char

/-- Embed a Lean string literal as a `JStr`. -/
def jstr (s : String) : JStr := s.data

/-- Boolean test that `p` is an initial segment of `s` (used to model
JavaScript `String.startsWith` and prefix checks on character lists). -/
def startsB : JStr → JStr → Bool
  | [], _ => true
  | _ :: _, [] => false
  | a :: as, b :: bs => a = b && startsB as bs

/-- Boolean test that `p` occurs contiguously somewhere inside `s`. -/
def containsB (p : JStr) (s : JStr) : Bool :=
  startsB p s ||
    (match s with
     | [] => false
     | _ :: xs => containsB p xs)

/-- Case-insensitive `startsB`, modelling the `i` flag of the source's
`/^https?:\/\//i` regex (the needle is given lowercase). -/
def startsCI (p : JStr) (s : JStr) : Bool :=
  startsB p (s.map Char.toLower)

/-- Characters of `s` strictly before the first occurrence of `c`. -/
def takeUntil (c : Char) : JStr → JStr
  | [] => []
  | x :: xs => if x = c then [] else x :: takeUntil c xs

/-- Characters of `s` from the first occurrence of `c` (inclusive);
`[]` when `c` does not occur. -/
def dropFrom (c : Char) : JStr → JStr
  | [] => []
  | x :: xs => if x = c then x :: xs else dropFrom c xs

/-- Replace the first occurrence of the character `pat` by `rep`, modelling
JavaScript `s.replace(pat, rep)` with a one-character pattern string. -/
def replaceFirst (pat : Char) (rep : JStr) : JStr → JStr
  | [] => []
  | x :: xs => if x = pat then rep ++ xs else x :: replaceFirst pat rep xs

/-- JavaScript whitespace test for `String.trim` (the common cases). -/
def isJsSpace (c : Char) : Bool :=
  c = ' ' || c = '\t' || c = '\n' || c = '\r' || c = '\x0c' || c = '\x0b'

/-- Model of JavaScript `String.prototype.trim`. -/
def trimL (s : JStr) : JStr :=
  ((s.dropWhile isJsSpace).reverse.dropWhile isJsSpace).reverse

/-- The components of a WHATWG `URL` object that the source reads:
`protocol` keeps the trailing colon (`"https:"`), `search` keeps the
leading `?` (or is empty), exactly as in the platform API. -/
structure URLm where
  protocol : JStr
  host : JStr
  pathname : JStr
  search : JStr
  deriving DecidableEq, Repr

/-- Parse the part of an absolute http(s) URL after `scheme://`.
Models the WHATWG parser for the plain URLs the proxy handles
(no userinfo, no fragment, hosts already lowercase). -/
def parseAfterScheme (proto : JStr) (rest : JStr) : URLm :=
  let host := rest.takeWhile (fun c => ¬ (c = '/' ∨ c = '?'))
  let after := rest.drop host.length
  let path0 := takeUntil '?' after
  { protocol := proto
    host := host
    pathname := if path0 = [] then jstr "/" else path0
    search := dropFrom '?' after }

/-- Model of `new URL(s)` for absolute http/https URLs; `none` models the
`TypeError` the platform throws on other inputs. -/
def parseURLabs (s : JStr) : Option URLm :=
  if startsCI (jstr "https://") s then
    some (parseAfterScheme (jstr "https:") (s.drop 8))
  else if startsCI (jstr "http://") s then
    some (parseAfterScheme (jstr "http:") (s.drop 7))
  else none

/-- The view of an incoming request the engine reads: method, the `Host`
header, and the request-target string `url` (path plus query, or an
absolute URL in proxy form). -/
structure ReqM where
  method : JStr
  host : JStr
  url : JStr
  deriving DecidableEq, Repr

/-- Model of `new URL(req.url, protocol + "://" + req.headers.host)`:
an absolute `req.url` wins, otherwise the path-with-query is resolved
against the base built from `protocol` and the `Host` header. -/
def urlOfReq (protocol : JStr) (req : ReqM) : URLm :=
  match parseURLabs req.url with
  | some u => u
  | none =>
      { protocol := protocol ++ [':']
        host := req.host
        pathname := takeUntil '?' req.url
        search := dropFrom '?' req.url }

/-- Body values a `RuleResponse` instance may carry (`string | Stream`);
a stream is identified by the file path it reads. -/
inductive BodyV where
  | bstr : JStr → BodyV
  | bstream : JStr → BodyV
  deriving DecidableEq, Repr

/-- Runtime values a rule's `onRequest` hook may resolve to, mirroring the
source's `RuleResult` union.  `vresp` is an `instanceof RuleResponse`
value (statusCode, statusMessage, headers, body); `vobj` is a plain
object literal that merely carries a `statusCode` field (such as the
`{statusCode: 404}` returned by the `file` handler) and is *not* an
instance of `RuleResponse`. -/
inductive JSVal where
  | vbool : Bool → JSVal
  | vnull : JSVal
  | vurl : URLm → JSVal
  | vstr : JStr → JSVal
  | vstream : JStr → JSVal
  | verr : JStr → JSVal
  | vresp : Option Int → Option JStr → List (JStr × JStr) → Option BodyV → JSVal
  | vobj : Option Int → JSVal
  deriving DecidableEq, Repr

/-- The response record handed to the emitter (`onResponse` in the proxy
class): a mutable-record view of either a `RuleResponse` or the wrapper
`{body: rt, statusCode: 200}` built by the dispatch engine. -/
structure Resp where
  statusCode : Option Int
  statusMessage : Option JStr
  headers : List (JStr × JStr)
  body : Option JSVal
  deriving DecidableEq, Repr

/-- Lift a `RuleResponse` body field into the emitter's value space. -/
def bodyToVal : BodyV → JSVal
  | .bstr s => .vstr s
  | .bstream p => .vstream p

/-- Observable actions of the dispatch engine on the request stream, the
response sink and the upstream connection, in program order.
`fetchUpstream u m h` records an upstream client request to URL `u` with
method `m` and a `Host` header `h` (the headers object at fetch time),
with the request body piped into it. -/
inductive Effect where
  | pause : Effect
  | inspectRequest : Nat → Effect
  | resume : Effect
  | writeHead : Int → List (JStr × JStr) → Effect
  | setHeader : JStr → JStr → Effect
  | endResponse : Effect
  | fetchUpstream : URLm → JStr → JStr → Effect
  | emitResponse : Resp → Effect
  deriving DecidableEq, Repr

/-- Effects that write to the client response sink. -/
def Effect.isSinkWrite : Effect → Bool
  | .writeHead _ _ => true
  | .setHeader _ _ => true
  | .endResponse => true
  | .emitResponse _ => true
  | _ => false

/-- A registered rule as the dispatch engine sees it: the `onRequest` hook,
which may mutate the request (the `forward` handler does) and yields a
`RuleResult` value. -/
structure RuleM where
  onRequest : ReqM → ReqM × JSVal

/-- The header object of the source's `OPTIONS` fast path, in its key
order. -/
def corsHeaders : List (JStr × JStr) :=
  [ (jstr "Access-Control-Allow-Headers", jstr "*")
  , (jstr "Access-Control-Allow-Methods", jstr "*")
  , (jstr "Access-Control-Allow-Origin", jstr "*") ]

/-- The coercion the dispatch engine applies in its synthesis branch:
`rt instanceof RuleResponse ? rt : {body: rt, statusCode: 200}`, then
default the status to 200 when null, then force 500 when the value is an
`Error`. -/
def coerceResult (rt : JSVal) : Resp :=
  let r0 : Resp :=
    match rt with
    | .vresp sc sm hd bd =>
        { statusCode := sc, statusMessage := sm, headers := hd
          body := bd.map bodyToVal }
    | other => { statusCode := some 200, statusMessage := none, headers := [], body := some other }
  let r1 := if r0.statusCode = none then { r0 with statusCode := some 200 } else r0
  match rt with
  | .verr _ => { r1 with statusCode := some 500 }
  | _ => r1

/-- The engine's coercion of a resolved `onRequest` result (`part_000`,
`forwardRequest`, the promise continuation): `false` suppresses;
`null`/`true`/`URL` fetch upstream (the fetch pipes the request body and
then resumes it); anything else resumes the request, sets
`Access-Control-Allow-Origin: *` and emits the coerced response. -/
def dispatchResult (rt : JSVal) (origUrl : URLm) (req : ReqM) : List Effect :=
  match rt with
  | .vbool false => []
  | .vbool true => [.fetchUpstream origUrl req.method req.host, .resume]
  | .vnull => [.fetchUpstream origUrl req.method req.host, .resume]
  | .vurl u => [.fetchUpstream u req.method req.host, .resume]
  | other =>
      [ .resume
      , .setHeader (jstr "Access-Control-Allow-Origin") (jstr "*")
      , .emitResponse (coerceResult other) ]

/-- The dispatch engine (`forwardRequest` in `part_000`) as an effect
trace: pause the request, notify the inspector, answer `OPTIONS` with a
permissive 204 when a rule matched, otherwise run the matched rule's
`onRequest` hook (an unmatched request behaves as a `null` result) and
coerce its result.  The original URL is computed from the request before
the hook may mutate it, exactly as in the source. -/
def forwardRequest (protocol : JStr) (req : ReqM) (rule : Option RuleM)
    (seq : Nat) : List Effect :=
  Effect.pause :: Effect.inspectRequest seq ::
    (if rule.isSome ∧ req.method = jstr "OPTIONS" then
      [.resume, .writeHead 204 corsHeaders, .endResponse]
    else
      let pr := match rule with
        | some r => r.onRequest req
        | none => (req, JSVal.vnull)
      dispatchResult pr.2 (urlOfReq protocol req) pr.1)

/-! ## Built-in rule handlers (`part_002`) -/

/-- The `file` rule's request hook: a falsy or non-existent path yields the
plain object `{statusCode: 404}` (not a `RuleResponse` instance), an
existing path yields a lazy read stream of the file.  `fsE` models
`fs.existsSync`. -/
def fileHandler (fsE : JStr → Bool) (args : JStr) (req : ReqM) : ReqM × JSVal :=
  if args = [] ∨ fsE args = false then (req, .vobj (some 404))
  else (req, .vstream args)

/-- The `forward` rule's request hook: parse the argument URL, rewrite
`req.url` to the trimmed argument with its first
`(uri.protocol + "://" + req.headers.host).length` characters removed,
set the `Host` header to the new URL's host, and resolve with the new
URL.  `none` models the `TypeError` thrown by `new URL` on a non-URL
argument. -/
def forwardHandler (urlArg : JStr) (req : ReqM) : Option (ReqM × JSVal) :=
  (parseURLabs urlArg).map fun uri =>
    ({ req with
        url := (trimL urlArg).drop (uri.protocol ++ jstr "://" ++ req.host).length
        host := uri.host },
     .vurl uri)

/-! ## Cache store (`part_002`, `CacheRule`) -/

/-- A parsed cache head file: the JSON object written by the response
hook. -/
structure CacheHead where
  statusCode : Option Int
  statusMessage : Option JStr
  headers : List (JStr × JStr)
  updateTime : Int
  deriving DecidableEq, Repr

/-- The on-disk cache as the cache rule reads it: parsed head files by
path, and existence of body files by path. -/
structure CacheFs where
  heads : JStr → Option CacheHead
  bodyExists : JStr → Bool

/-- The record returned by `getCacheFile`. -/
structure CacheFileRef where
  dir : JStr
  headFile : JStr
  bodyFile : JStr
  exist : Bool
  deriving DecidableEq, Repr

/-- `path.resolve(a, b)` for a relative second segment, as used by the
cache store. -/
def pathJoin (a b : JStr) : JStr := a ++ jstr "/" ++ b

/-- `CacheRule.getCacheFile`: resolve the request URL against
`http://host`, derive the entry directory from `host ++ pathname` (with
the first `:` replaced by `/`), and the base name from the method, with
`md5(search)` appended when `cacheByQuery` is set and the URL has a
query.  `md5` models `crypto.createHash("md5")...digest("hex")` and `hE`
models `fs.existsSync` on the head file. -/
def getCacheFile (md5 : JStr → JStr) (cacheDir : JStr) (hE : JStr → Bool)
    (req : ReqM) (cacheByQuery : Bool) : CacheFileRef :=
  let url := urlOfReq (jstr "http") req
  let dir := pathJoin cacheDir (replaceFirst ':' (jstr "/") (url.host ++ url.pathname))
  let hash := if cacheByQuery ∧ url.search ≠ [] then md5 url.search else []
  let name := if hash ≠ [] then req.method ++ '.' :: hash else req.method
  let nm := if name = [] then jstr "1" else name
  { dir := dir
    headFile := pathJoin dir nm ++ jstr ".head"
    bodyFile := pathJoin dir nm ++ jstr ".body"
    exist := hE (pathJoin dir nm ++ jstr ".head") }

/-- The in-memory `CacheRule.requests` map from `seq` to the selected
entry and its ttl. -/
abbrev CacheReqs := Nat → Option (CacheFileRef × Option Int)

/-- Point update of the `requests` map (`CacheRule.requests[seq] = v`). -/
def setReq (m : CacheReqs) (seq : Nat) (v : CacheFileRef × Option Int) : CacheReqs :=
  fun n => if n = seq then some v else m n

/-- The cache entry selected by the request hook: `getCacheFile` with
`fs.existsSync` on head files read from the modelled cache state. -/
def cacheFileOf (md5 : JStr → JStr) (cacheDir : JStr) (fs : CacheFs)
    (req : ReqM) (cacheByQuery : Bool) : CacheFileRef :=
  getCacheFile md5 cacheDir (fun p => (fs.heads p).isSome) req cacheByQuery

/-- `CacheRule.onRequest`: when the head file exists and the entry is
fresh (`ttl` unset, or `updateTime + ttl*1000 ≥ now`), resolve with a
`RuleResponse` rebuilt from the head whose body streams the body file
lazily (empty string when absent); otherwise record the selected entry
under `seq` and resolve with `undefined` (Passthrough). -/
def cacheOnRequest (md5 : JStr → JStr) (cacheDir : JStr) (fs : CacheFs)
    (requests : CacheReqs) (now : Int) (seq : Nat) (req : ReqM)
    (ttl : Option Int) (cacheByQuery : Bool) : JSVal × CacheReqs :=
  let file := cacheFileOf md5 cacheDir fs req cacheByQuery
  match fs.heads file.headFile with
  | some head =>
      if (match ttl with
          | none => true
          | some t => decide (head.updateTime + t * 1000 ≥ now)) then
        ( .vresp head.statusCode head.statusMessage head.headers
            (some (if fs.bodyExists file.bodyFile then .bstream file.bodyFile
                   else .bstr []))
        , requests )
      else (.vnull, setReq requests seq (file, ttl))
  | none => (.vnull, setReq requests seq (file, ttl))

/-- The upstream response object as the cache's response hook reads it. -/
structure RespIn where
  statusCode : Option Int
  statusMessage : Option JStr
  headers : List (JStr × JStr)
  isReadable : Bool
  deriving DecidableEq, Repr

/-- Cache writes performed by the response hook. -/
inductive CacheWrite where
  | mkdir : JStr → CacheWrite
  | writeHead : JStr → CacheHead → CacheWrite
  | pipeBody : JStr → CacheWrite
  deriving DecidableEq, Repr

/-- `CacheRule.onResponse`: the source destructures
`const { file } = CacheRule.requests[seq]` *before* its `if (!file)
return;` guard, so a `seq` with no recorded entry makes the destructuring
throw a `TypeError` (modelled as `Except.error`); a recorded entry always
carries a (truthy) file record, after which the directory is created if
missing, the head file written with the current time, and a readable
response body piped into the body file. -/
def cacheOnResponse (requests : CacheReqs) (seq : Nat) (res : RespIn)
    (now : Int) (dirExists : JStr → Bool) : Except JStr (List CacheWrite) :=
  match requests seq with
  | none => .error (jstr "TypeError: Cannot destructure property of undefined")
  | some (file, _) =>
      .ok ((if dirExists file.dir then [] else [CacheWrite.mkdir file.dir]) ++
        [CacheWrite.writeHead file.headFile
          { statusCode := res.statusCode
            statusMessage := res.statusMessage
            headers := res.headers
            updateTime := now }] ++
        (if res.isReadable then [CacheWrite.pipeBody file.bodyFile] else []))

/-! ## Rule matcher (`part_000`, `createMatcher` / `addRule`) -/

/-- Strip a leading `http://` or `https://`, case-insensitively, once:
the source's `url.replace(/^https?:\/\//i, "")`. -/
def stripScheme (u : JStr) : JStr :=
  if startsCI (jstr "https://") u then u.drop 8
  else if startsCI (jstr "http://") u then u.drop 7
  else u

/-- JavaScript `s.split("*")`: the list of segments between `*`
occurrences, keeping empty segments. -/
def splitStar : JStr → List JStr
  | [] => [[]]
  | c :: cs =>
      let r := splitStar cs
      if c = '*' then [] :: r
      else
        match r with
        | s :: rest => (c :: s) :: rest
        | [] => [[c]]

/-- Hexadecimal digit, for the `\u00XX` escapes of `JSON.stringify`. -/
def hexDigit (n : Nat) : Char :=
  if n < 10 then Char.ofNat ('0'.toNat + n) else Char.ofNat ('a'.toNat + (n - 10))

/-- The escaping `JSON.stringify` applies to one character inside a string
literal (quote, backslash, and control characters; everything else is
kept verbatim — in particular regex metacharacters such as `.`). -/
def jsonEscapeChar (c : Char) : JStr :=
  if c = '"' then ['\\', '"']
  else if c = '\\' then ['\\', '\\']
  else if c = '\x08' then ['\\', 'b']
  else if c = '\x0c' then ['\\', 'f']
  else if c = '\n' then ['\\', 'n']
  else if c = '\r' then ['\\', 'r']
  else if c = '\t' then ['\\', 't']
  else if c.toNat < 32 then
    ['\\', 'u', '0', '0', hexDigit (c.toNat / 16), hexDigit (c.toNat % 16)]
  else [c]

/-- `JSON.stringify(x).slice(1, -1)`: the JSON string-escaped body of a
segment, without the surrounding quotes. -/
def jsonEscape (s : JStr) : JStr := (s.map jsonEscapeChar).flatten

/-- The regex source string built by `createMatcher` for a string
pattern: strip the scheme, split on `*`, JSON-escape each segment, and
rejoin with `.*?`. -/
def createMatcherSrc (p : JStr) : JStr :=
  List.intercalate (jstr ".*?") ((splitStar (stripScheme p)).map jsonEscape)

/-- Tokens of the regex fragment the compiled matchers live in:
literal characters, `.` and the lazy gap `.*?`. -/
inductive RTok where
  | lit : Char → RTok
  | anyOne : RTok
  | anyStar : RTok
  deriving DecidableEq, Repr

/-- Regex metacharacters that the token parser does not treat as
literals. -/
def regexSpecial (c : Char) : Bool :=
  c = '\\' || c = '.' || c = '*' || c = '?' || c = '+' || c = '(' || c = ')' ||
  c = '[' || c = ']' || c = '^' || c = '$' || c = '|' || c = '\x7b' || c = '\x7d'

/-- Parse a regex source string into tokens, for the fragment produced by
`createMatcherSrc`: backslash escapes of punctuation and of
`n`/`r`/`t`/`f` denote literal characters, `.` matches any character,
`.*` and `.*?` are the unbounded gap, and any other metacharacter is
outside the modelled fragment (`none`). -/
def regexParseF : Nat → JStr → Option (List RTok)
  | _, [] => some []
  | 0, _ :: _ => none
  | f + 1, a :: rest =>
      if a = '\\' then
        match rest with
        | [] => none
        | c :: rest2 =>
            if c = 'n' then (regexParseF f rest2).map (RTok.lit '\n' :: ·)
            else if c = 'r' then (regexParseF f rest2).map (RTok.lit '\r' :: ·)
            else if c = 't' then (regexParseF f rest2).map (RTok.lit '\t' :: ·)
            else if c = 'f' then (regexParseF f rest2).map (RTok.lit '\x0c' :: ·)
            else if c.isAlpha ∨ c.isDigit then none
            else (regexParseF f rest2).map (RTok.lit c :: ·)
      else if a = '.' then
        match rest with
        | '*' :: '?' :: rest2 => (regexParseF f rest2).map (RTok.anyStar :: ·)
        | '*' :: rest2 => (regexParseF f rest2).map (RTok.anyStar :: ·)
        | _ => (regexParseF f rest).map (RTok.anyOne :: ·)
      else if regexSpecial a then none
      else (regexParseF f rest).map (RTok.lit a :: ·)

/-- Parse a regex source into tokens; every step of `regexParseF`
consumes at least one character, so `s.length` fuel always suffices. -/
def regexParse (s : JStr) : Option (List RTok) := regexParseF s.length s

/-- Fuelled matcher for a token list against an initial segment of `s`.
Each step consumes a token or a character, so fuel
`toks.length + s.length + 1` is always enough. -/
def matchHereF : Nat → List RTok → JStr → Bool
  | 0, _, _ => false
  | _ + 1, [], _ => true
  | f + 1, .lit c :: r, x :: xs => x = c && matchHereF f r xs
  | _ + 1, .lit _ :: _, [] => false
  | f + 1, .anyOne :: r, _ :: xs => matchHereF f r xs
  | _ + 1, .anyOne :: _, [] => false
  | f + 1, .anyStar :: r, s =>
      matchHereF f r s ||
        (match s with
         | [] => false
         | _ :: xs => matchHereF f (.anyStar :: r) xs)

/-- Match a token list at the start of `s`. -/
def matchHere (toks : List RTok) (s : JStr) : Bool :=
  matchHereF (toks.length + s.length + 1) toks s

/-- Fuelled unanchored search over the suffixes of `s`. -/
def rtestF : Nat → List RTok → JStr → Bool
  | 0, _, _ => false
  | f + 1, toks, s =>
      matchHere toks s ||
        (match s with
         | [] => false
         | _ :: xs => rtestF f toks xs)

/-- `RegExp.prototype.test`: unanchored search of the token list in
`s`. -/
def rtest (toks : List RTok) (s : JStr) : Bool :=
  rtestF (s.length + 1) toks s

/-- The compiled matcher applied as in `addRule`:
`createMatcher(rule.path).test(req.headers.host + req.url)`, for string
patterns whose compiled source lies in the modelled regex fragment. -/
def ruleMatch (pattern : JStr) (host : JStr) (url : JStr) : Bool :=
  match regexParse (createMatcherSrc pattern) with
  | some toks => rtest toks (host ++ url)
  | none => false

/-- The matcher as the spec describes it, for comparison with
`createMatcherSrc`: identical except that each literal segment is
*regex-escaped* (every metacharacter prefixed with a backslash) instead
of JSON-escaped. -/
def createMatcherSrcSpec (p : JStr) : JStr :=
  List.intercalate (jstr ".*?")
    ((splitStar (stripScheme p)).map fun s =>
      (s.map fun c => if regexSpecial c then ['\\', c] else [c]).flatten)

/-- The spec-worded matcher applied to `host ++ url`. -/
def ruleMatchSpec (pattern : JStr) (host : JStr) (url : JStr) : Bool :=
  match regexParse (createMatcherSrcSpec pattern) with
  | some toks => rtest toks (host ++ url)
  | none => false

/-- Characters that `JSON.stringify` keeps verbatim inside a string
literal: printable and neither the quote nor the backslash. -/
def plainChar (c : Char) : Bool :=
  Nat.ble 32 c.toNat && !(c == '"') && !(c == '\\')

/-! ## Inspector journal timer (`src/inspector.ts`, `saveEntries`) -/

/-- The inspector's flush-timer state: the `nextSaveTime` field, the id of
the timer stored in `this.timer`, the active (not yet cleared) timeouts
as `(id, fire time)` pairs, and a fresh-id counter. -/
structure InspSt where
  nextSaveTime : Int
  timer : Option Nat
  scheduled : List (Nat × Int)
  nextId : Nat
  deriving DecidableEq, Repr

/-- Inspector construction at wall-clock time `now`:
`nextSaveTime = Date.now()`, no timer. -/
def inspInit (now : Int) : InspSt :=
  { nextSaveTime := now, timer := none, scheduled := [], nextId := 0 }

/-- One call of `saveEntries` at wall-clock time `now`: compute
`timeLeft`, reset `nextSaveTime` to `2000` when negative, add `2000`
when `timeLeft ≤ 2000` (otherwise clear the stored timer), then schedule
a new timeout with relative delay `nextSaveTime`, which fires — and
writes `index.json` — at `now + nextSaveTime` unless cleared. -/
def saveEntries (now : Int) (st : InspSt) : InspSt :=
  let timeLeft := st.nextSaveTime - now
  let nst0 := if timeLeft < 0 then (2000 : Int) else st.nextSaveTime
  let cleared :=
    if timeLeft ≤ 2000 then st.scheduled
    else
      match st.timer with
      | some id => st.scheduled.filter (fun p => ¬ p.1 = id)
      | none => st.scheduled
  let nst1 := if timeLeft ≤ 2000 then nst0 + 2000 else nst0
  { nextSaveTime := nst1
    timer := some st.nextId
    scheduled := (st.nextId, now + nst1) :: cleared
    nextId := st.nextId + 1 }

/-! ## Theorems about the dispatch engine -/

/-- Values that fall into the synthesis branch of the dispatch coercion:
neither `false` (suppress) nor `true`/`null`/`URL` (upstream fetch). -/
def isSynthVal : JSVal → Bool
  | .vbool _ => false
  | .vnull => false
  | .vurl _ => false
  | _ => true

/-- Reduction of the dispatch engine for non-`OPTIONS` requests: the rule
hook runs and its result is coerced. -/
theorem forwardRequest_run (protocol : JStr) (req : ReqM)
    (f : ReqM → ReqM × JSVal) (seq : Nat)
    (hm : ¬ req.method = jstr "OPTIONS") :
    forwardRequest protocol req (some ⟨f⟩) seq =
      Effect.pause :: Effect.inspectRequest seq ::
        dispatchResult (f req).2 (urlOfReq protocol req) (f req).1 := by
  simp [forwardRequest, hm]

/-- Claim C1: for every intercepted non-`OPTIONS` request, the engine
coerces the matched rule's `onRequest` result as follows — literal
`false` ends dispatch with the handler owning the response;
`null`/`undefined`/`true` fetches the original URL upstream; a `URL`
value fetches that URL upstream; any other value is emitted as a
synthesized response whose status defaults to 200 (the `statusCode` of a
`RuleResponse` when set), becomes 500 when the value is an `Error`, and
which carries the `Access-Control-Allow-Origin: *` header. -/
theorem dispatch_result_coercion (protocol : JStr) (req : ReqM)
    (f : ReqM → ReqM × JSVal) (seq : Nat)
    (hm : ¬ req.method = jstr "OPTIONS") :
    (∀ req1, f req = (req1, .vbool false) →
      forwardRequest protocol req (some ⟨f⟩) seq =
        [.pause, .inspectRequest seq]) ∧
    (∀ req1 rt, f req = (req1, rt) → (rt = .vnull ∨ rt = .vbool true) →
      forwardRequest protocol req (some ⟨f⟩) seq =
        [.pause, .inspectRequest seq,
         .fetchUpstream (urlOfReq protocol req) req1.method req1.host,
         .resume]) ∧
    (∀ req1 u, f req = (req1, .vurl u) →
      forwardRequest protocol req (some ⟨f⟩) seq =
        [.pause, .inspectRequest seq, .fetchUpstream u req1.method req1.host,
         .resume]) ∧
    (∀ req1 rt, f req = (req1, rt) → isSynthVal rt = true →
      forwardRequest protocol req (some ⟨f⟩) seq =
        [.pause, .inspectRequest seq, .resume,
         .setHeader (jstr "Access-Control-Allow-Origin") (jstr "*"),
         .emitResponse (coerceResult rt)] ∧
      (∀ m, rt = .verr m → (coerceResult rt).statusCode = some 500) ∧
      (∀ sc sm hd bd, rt = .vresp sc sm hd bd →
        (coerceResult rt).statusCode = some (sc.getD 200)) ∧
      ((∀ m, ¬ rt = .verr m) → (∀ sc sm hd bd, ¬ rt = .vresp sc sm hd bd) →
        (coerceResult rt).statusCode = some 200)) := by
  have hfr := forwardRequest_run protocol req f seq hm
  refine ⟨?_, ?_, ?_, ?_⟩
  · intro req1 hf
    rw [hfr, hf]
    rfl
  · intro req1 rt hf hrt
    rw [hfr, hf]
    rcases hrt with h | h <;> subst h <;> rfl
  · intro req1 u hf
    rw [hfr, hf]
    rfl
  · intro req1 rt hf hs
    refine ⟨?_, ?_, ?_, ?_⟩
    · rw [hfr, hf]
      cases rt with
      | vbool b => simp [isSynthVal] at hs
      | vnull => simp [isSynthVal] at hs
      | vurl u => simp [isSynthVal] at hs
      | vstr s => rfl
      | vstream s => rfl
      | verr m => rfl
      | vresp sc sm hd bd => rfl
      | vobj o => rfl
    · rintro m rfl
      rfl
    · rintro sc sm hd bd rfl
      cases sc <;> simp [coerceResult]
    · intro hne hnr
      cases rt with
      | vbool b => simp [isSynthVal] at hs
      | vnull => simp [isSynthVal] at hs
      | vurl u => simp [isSynthVal] at hs
      | vstr s => rfl
      | vstream s => rfl
      | verr m => exact absurd rfl (hne m)
      | vresp sc sm hd bd => exact absurd rfl (hnr sc sm hd bd)
      | vobj o => rfl

/-- Claim C1 witness: a rule answering the string `"ok"` on
`GET http://x/p` yields the synthesized-response trace with a 200
status and the permissive origin header. -/
theorem dispatch_result_coercion_witness :
    forwardRequest (jstr "http") ⟨jstr "GET", jstr "x", jstr "/p"⟩
        (some ⟨fun r => (r, .vstr (jstr "ok"))⟩) 1 =
      [.pause, .inspectRequest 1, .resume,
       .setHeader (jstr "Access-Control-Allow-Origin") (jstr "*"),
       .emitResponse (coerceResult (.vstr (jstr "ok")))] :=
  ((dispatch_result_coercion (jstr "http") ⟨jstr "GET", jstr "x", jstr "/p"⟩
      (fun r => (r, .vstr (jstr "ok"))) 1 (by decide)).2.2.2
    ⟨jstr "GET", jstr "x", jstr "/p"⟩ (.vstr (jstr "ok")) rfl rfl).1

/-- Claim C2: with rule `file|/a.js|/missing` and the path absent, the
handler returns the plain object `{statusCode: 404}`, but — because that
object is not a `RuleResponse` instance — dispatch wraps it as
`{body: rt, statusCode: 200}` and emits status 200 with the 404 object
as body: the client does not receive a 404. -/
theorem file_missing_emits_200_not_404 :
    fileHandler (fun _ => false) (jstr "/missing")
        ⟨jstr "GET", jstr "x", jstr "/a.js"⟩ =
      (⟨jstr "GET", jstr "x", jstr "/a.js"⟩, .vobj (some 404)) ∧
    forwardRequest (jstr "http") ⟨jstr "GET", jstr "x", jstr "/a.js"⟩
        (some ⟨fun r => fileHandler (fun _ => false) (jstr "/missing") r⟩) 1 =
      [.pause, .inspectRequest 1, .resume,
       .setHeader (jstr "Access-Control-Allow-Origin") (jstr "*"),
       .emitResponse { statusCode := some 200, statusMessage := none,
                       headers := [], body := some (.vobj (some 404)) }] := by
  constructor <;> rfl

/-- Claim C6: on an `OPTIONS` request with a matched rule the engine
resumes the request and answers 204 with the three permissive CORS
headers, identically for any two handlers (the handler is not invoked);
with no matching rule an `OPTIONS` request falls through to the normal
upstream forwarding path. -/
theorem options_preflight (protocol : JStr) (req : ReqM)
    (f g : ReqM → ReqM × JSVal) (seq : Nat)
    (hm : req.method = jstr "OPTIONS") :
    forwardRequest protocol req (some ⟨f⟩) seq =
      [.pause, .inspectRequest seq, .resume, .writeHead 204 corsHeaders,
       .endResponse] ∧
    forwardRequest protocol req (some ⟨f⟩) seq =
      forwardRequest protocol req (some ⟨g⟩) seq ∧
    forwardRequest protocol req none seq =
      [.pause, .inspectRequest seq,
       .fetchUpstream (urlOfReq protocol req) req.method req.host,
       .resume] := by
  refine ⟨?_, ?_, ?_⟩ <;> simp [forwardRequest, hm, dispatchResult]

/-- Claim C6 witness: a concrete `OPTIONS` preflight against two distinct
handlers, and the no-match fall-through. -/
theorem options_preflight_witness :
    forwardRequest (jstr "http") ⟨jstr "OPTIONS", jstr "x", jstr "/p"⟩
        (some ⟨fun r => (r, .vstr (jstr "a"))⟩) 1 =
      [.pause, .inspectRequest 1, .resume, .writeHead 204 corsHeaders,
       .endResponse] ∧
    forwardRequest (jstr "http") ⟨jstr "OPTIONS", jstr "x", jstr "/p"⟩
        (some ⟨fun r => (r, .vstr (jstr "a"))⟩) 1 =
      forwardRequest (jstr "http") ⟨jstr "OPTIONS", jstr "x", jstr "/p"⟩
        (some ⟨fun r => (r, .vbool false)⟩) 1 ∧
    forwardRequest (jstr "http") ⟨jstr "OPTIONS", jstr "x", jstr "/p"⟩ none 1 =
      [.pause, .inspectRequest 1,
       .fetchUpstream (urlOfReq (jstr "http") ⟨jstr "OPTIONS", jstr "x", jstr "/p"⟩)
         (jstr "OPTIONS") (jstr "x"),
       .resume] :=
  options_preflight (jstr "http") ⟨jstr "OPTIONS", jstr "x", jstr "/p"⟩
    (fun r => (r, .vstr (jstr "a"))) (fun r => (r, .vbool false)) 1 (by decide)

/-- Claim C10: when the matched rule's hook resolves to literal `false`,
the dispatch trace is only the pause and the inspector notification —
the engine never resumes the request body it paused, performs no write
to the response sink, and opens no upstream fetch that would drain the
body. -/
theorem suppress_frame_effects (protocol : JStr) (req : ReqM)
    (f : ReqM → ReqM × JSVal) (seq : Nat) (req1 : ReqM)
    (hm : ¬ req.method = jstr "OPTIONS")
    (hf : f req = (req1, .vbool false)) :
    forwardRequest protocol req (some ⟨f⟩) seq =
      [.pause, .inspectRequest seq] ∧
    ∀ e ∈ forwardRequest protocol req (some ⟨f⟩) seq,
      e.isSinkWrite = false ∧ ¬ e = .resume ∧
        ∀ u m h, ¬ e = .fetchUpstream u m h := by
  have h1 : forwardRequest protocol req (some ⟨f⟩) seq =
      [.pause, .inspectRequest seq] := by
    rw [forwardRequest_run protocol req f seq hm, hf]
    rfl
  refine ⟨h1, ?_⟩
  rw [h1]
  intro e he
  simp only [List.mem_cons, List.not_mem_nil, or_false] at he
  rcases he with rfl | rfl
  · exact ⟨rfl, by simp, by simp⟩
  · exact ⟨rfl, by simp, by simp⟩

/-- Claim C10 witness: a concrete suppressed request leaves exactly the
pause-and-inspect trace. -/
theorem suppress_frame_effects_witness :
    forwardRequest (jstr "http") ⟨jstr "POST", jstr "x", jstr "/p"⟩
        (some ⟨fun r => (r, .vbool false)⟩) 7 =
      [.pause, .inspectRequest 7] :=
  (suppress_frame_effects (jstr "http") ⟨jstr "POST", jstr "x", jstr "/p"⟩
    (fun r => (r, .vbool false)) 7 ⟨jstr "POST", jstr "x", jstr "/p"⟩
    (by decide) rfl).1

/-! ## Theorems about the cache handler -/

/-- Claim C3: when the head file of the selected entry exists, the cache
request hook returns — if `ttl` is unset or
`updateTime + ttl*1000 ≥ now` — a synthesized response carrying the
stored head's status, message and headers, with the body file streamed
lazily (and an empty-string body when the body file is absent), leaving
the `seq` map untouched; in the stale case, and when no head file
exists, it records the selected entry under `seq` and returns
Passthrough (`undefined`). -/
theorem cache_request_hook (md5 : JStr → JStr) (cacheDir : JStr)
    (fs : CacheFs) (requests : CacheReqs) (now : Int) (seq : Nat)
    (req : ReqM) (ttl : Option Int) (q : Bool) :
    (∀ head,
      fs.heads (cacheFileOf md5 cacheDir fs req q).headFile = some head →
      ((ttl = none ∨ ∃ t, ttl = some t ∧ head.updateTime + t * 1000 ≥ now) →
        cacheOnRequest md5 cacheDir fs requests now seq req ttl q =
          (.vresp head.statusCode head.statusMessage head.headers
              (some (if fs.bodyExists (cacheFileOf md5 cacheDir fs req q).bodyFile
                     then .bstream (cacheFileOf md5 cacheDir fs req q).bodyFile
                     else .bstr [])),
           requests)) ∧
      (∀ t, ttl = some t → head.updateTime + t * 1000 < now →
        cacheOnRequest md5 cacheDir fs requests now seq req ttl q =
          (.vnull,
           setReq requests seq (cacheFileOf md5 cacheDir fs req q, ttl)))) ∧
    (fs.heads (cacheFileOf md5 cacheDir fs req q).headFile = none →
      cacheOnRequest md5 cacheDir fs requests now seq req ttl q =
        (.vnull,
         setReq requests seq (cacheFileOf md5 cacheDir fs req q, ttl))) := by
  refine ⟨?_, ?_⟩
  · intro head hh
    refine ⟨?_, ?_⟩
    · intro hfresh
      simp only [cacheOnRequest, hh]
      rcases hfresh with rfl | ⟨t, rfl, ht⟩
      · rfl
      · simp [ht]
    · intro t ht hstale
      subst ht
      simp only [cacheOnRequest, hh]
      simp [not_le.mpr hstale]
  · intro hh
    simp only [cacheOnRequest, hh]

/-- Claim C3 witness: a concrete fresh hit (head present, `ttl = 60`,
entry 1 s old) is served from the head with an empty body, and a
concrete stale call records the entry. -/
theorem cache_request_hook_witness :
    cacheOnRequest (fun _ => jstr "h") (jstr "/c")
        { heads := fun p =>
            if p = jstr "/c/x/img/GET.head" then
              some { statusCode := some 200, statusMessage := some (jstr "OK")
                     headers := [(jstr "a", jstr "b")], updateTime := 1000 }
            else none
          bodyExists := fun _ => false }
        (fun _ => none) 50000 3 ⟨jstr "GET", jstr "x", jstr "/img"⟩
        (some 60) false =
      (.vresp (some 200) (some (jstr "OK")) [(jstr "a", jstr "b")]
          (some (.bstr [])),
       fun _ => none) :=
  ((cache_request_hook (fun _ => jstr "h") (jstr "/c")
      { heads := fun p =>
          if p = jstr "/c/x/img/GET.head" then
            some { statusCode := some 200, statusMessage := some (jstr "OK")
                   headers := [(jstr "a", jstr "b")], updateTime := 1000 }
          else none
        bodyExists := fun _ => false }
      (fun _ => none) 50000 3 ⟨jstr "GET", jstr "x", jstr "/img"⟩
      (some 60) false).1
    { statusCode := some 200, statusMessage := some (jstr "OK")
      headers := [(jstr "a", jstr "b")], updateTime := 1000 }
    (by rfl)).1 (Or.inr ⟨60, rfl, by decide⟩)

/-- Claim C8: `CacheRule.onResponse` destructures the `requests[seq]`
lookup before its falsy guard, so an invocation whose `seq` was never
recorded throws a `TypeError` (instead of doing nothing), performing no
cache write. -/
theorem cache_response_missing_seq_throws (res : RespIn) (now : Int)
    (dirExists : JStr → Bool) :
    cacheOnResponse (fun _ => none) 1 res now dirExists =
      .error (jstr "TypeError: Cannot destructure property of undefined") :=
  rfl

/-- `takeUntil` stops exactly at the query separator: a path with no `?`
followed by a query (empty, or starting with `?`) parses back to the
path. -/
theorem takeUntil_append (p q : JStr) (hp : ¬ '?' ∈ p)
    (hq : q = [] ∨ ∃ r, q = '?' :: r) :
    takeUntil '?' (p ++ q) = p := by
  induction p with
  | nil =>
      rcases hq with rfl | ⟨r, rfl⟩
      · rfl
      · simp [takeUntil]
  | cons a as ih =>
      have ha : ¬ a = '?' := fun h => hp (h ▸ List.mem_cons_self a as)
      simp only [List.cons_append, takeUntil, if_neg ha]
      exact congrArg (List.cons a) (ih (fun h => hp (List.mem_cons_of_mem a h)))

/-- `dropFrom` keeps exactly the query part under the same hypotheses. -/
theorem dropFrom_append (p q : JStr) (hp : ¬ '?' ∈ p)
    (hq : q = [] ∨ ∃ r, q = '?' :: r) :
    dropFrom '?' (p ++ q) = q := by
  induction p with
  | nil =>
      rcases hq with rfl | ⟨r, rfl⟩
      · rfl
      · simp [dropFrom]
  | cons a as ih =>
      have ha : ¬ a = '?' := fun h => hp (h ▸ List.mem_cons_self a as)
      simp only [List.cons_append, dropFrom, if_neg ha]
      exact ih (fun h => hp (List.mem_cons_of_mem a h))

/-- A request target beginning with `/` is not an absolute URL, so
`new URL(req.url, base)` resolves it against the base: host from the
`Host` header, pathname up to `?`, search from `?`. -/
theorem urlOfReq_rel (protocol m host : JStr) (p : JStr) :
    urlOfReq protocol ⟨m, host, '/' :: p⟩ =
      { protocol := protocol ++ [':'], host := host
        pathname := takeUntil '?' ('/' :: p)
        search := dropFrom '?' ('/' :: p) } :=
  rfl

/-- `getCacheFile` on a slash-rooted path split as `path ++ query`:
the directory is derived from host and path alone, and the base name
from the method with `md5(query)` appended exactly when `cacheByQuery`
is set and the query is non-empty. -/
theorem getCacheFile_split (md5 : JStr → JStr) (cacheDir : JStr)
    (hE : JStr → Bool) (method host p0 q : JStr) (cbq : Bool)
    (hp : ¬ '?' ∈ ('/' :: p0)) (hq : q = [] ∨ ∃ r, q = '?' :: r) :
    getCacheFile md5 cacheDir hE ⟨method, host, ('/' :: p0) ++ q⟩ cbq =
      (let dir := pathJoin cacheDir
          (replaceFirst ':' (jstr "/") (host ++ '/' :: p0))
       let hash := if cbq ∧ ¬ q = [] then md5 q else []
       let name := if ¬ hash = [] then method ++ '.' :: hash else method
       let nm := if name = [] then jstr "1" else name
       { dir := dir
         headFile := pathJoin dir nm ++ jstr ".head"
         bodyFile := pathJoin dir nm ++ jstr ".body"
         exist := hE (pathJoin dir nm ++ jstr ".head") }) := by
  have hu : urlOfReq (jstr "http") ⟨method, host, ('/' :: p0) ++ q⟩ =
      { protocol := jstr "http" ++ [':'], host := host
        pathname := takeUntil '?' (('/' :: p0) ++ q)
        search := dropFrom '?' (('/' :: p0) ++ q) } := rfl
  simp only [getCacheFile, hu, takeUntil_append ('/' :: p0) q hp hq,
    dropFrom_append ('/' :: p0) q hp hq]

/-- Claim C4: the cache entry key depends only on `(host, path)` and the
method — two URLs differing only in their query select the same entry
when `cacheByQuery` is unset; with `cacheByQuery` set and a non-empty
query, the base name is the method and `md5(query)` joined by `.`, and
without a query it is just the method. -/
theorem cache_key_query (md5 : JStr → JStr) (cacheDir : JStr)
    (hE : JStr → Bool) (method host p q1 q2 : JStr)
    (hp : ∃ p0, p = '/' :: p0) (hnq : ¬ '?' ∈ p)
    (hq1 : q1 = [] ∨ ∃ r, q1 = '?' :: r)
    (hq2 : q2 = [] ∨ ∃ r, q2 = '?' :: r) :
    getCacheFile md5 cacheDir hE ⟨method, host, p ++ q1⟩ false =
      getCacheFile md5 cacheDir hE ⟨method, host, p ++ q2⟩ false ∧
    (∀ r, q1 = '?' :: r → ¬ md5 q1 = [] →
      (getCacheFile md5 cacheDir hE ⟨method, host, p ++ q1⟩ true).headFile =
        pathJoin (pathJoin cacheDir (replaceFirst ':' (jstr "/") (host ++ p)))
          (method ++ '.' :: md5 q1) ++ jstr ".head") ∧
    (q1 = [] → ¬ method = [] →
      (getCacheFile md5 cacheDir hE ⟨method, host, p ++ q1⟩ true).headFile =
        pathJoin (pathJoin cacheDir (replaceFirst ':' (jstr "/") (host ++ p)))
          method ++ jstr ".head") := by
  obtain ⟨p0, rfl⟩ := hp
  refine ⟨?_, ?_, ?_⟩
  · rw [getCacheFile_split md5 cacheDir hE method host p0 q1 false hnq hq1,
      getCacheFile_split md5 cacheDir hE method host p0 q2 false hnq hq2]
    simp
  · rintro r rfl hmd5
    rw [getCacheFile_split md5 cacheDir hE method host p0 ('?' :: r) true hnq hq1]
    have hne : ¬ (method ++ '.' :: md5 ('?' :: r)) = [] := by
      cases method <;> simp
    simp [hmd5, hne]
  · rintro rfl hmethod
    rw [getCacheFile_split md5 cacheDir hE method host p0 [] true hnq hq1]
    simp [hmethod]

/-- Claim C4 witness: with `cacheByQuery = false` the queries `?a` and
`?b` select the same entry of `/c/x/img`; with `cacheByQuery = true` the
`?a` query is hashed into the base name. -/
theorem cache_key_query_witness :
    getCacheFile (fun s => 'h' :: s) (jstr "/c") (fun _ => false)
        ⟨jstr "GET", jstr "x", jstr "/img" ++ jstr "?a"⟩ false =
      getCacheFile (fun s => 'h' :: s) (jstr "/c") (fun _ => false)
        ⟨jstr "GET", jstr "x", jstr "/img" ++ jstr "?b"⟩ false :=
  (cache_key_query (fun s => 'h' :: s) (jstr "/c") (fun _ => false)
    (jstr "GET") (jstr "x") (jstr "/img") (jstr "?a") (jstr "?b")
    ⟨jstr "img", rfl⟩ (by decide)
    (Or.inr ⟨jstr "a", rfl⟩) (Or.inr ⟨jstr "b", rfl⟩)).1

/-! ## Theorems about the forward rule -/

/-- Claim C5 counterexample: with rule
`forward|/api/(.*)|https://upstream/v2/` and request `GET http://x/api/u`
the hook sets `req.url` to `"stream/v2/"` — the source strips
`(uri.protocol + "://" + host).length` characters, and `uri.protocol`
already ends in `:`, so one character more is removed than the length of
`scheme://original-host` (`"https://x"`, which is not even a prefix of
the argument). -/
theorem forward_strip_counterexample :
    (forwardHandler (jstr "https://upstream/v2/")
        ⟨jstr "GET", jstr "x", jstr "/api/u"⟩).map (fun pr => pr.1.url) =
      some (jstr "stream/v2/") ∧
    ¬ jstr "stream/v2/" =
        (trimL (jstr "https://upstream/v2/")).drop (jstr "https://x").length ∧
    startsB (jstr "https://x") (jstr "https://upstream/v2/") = false := by
  refine ⟨rfl, by decide, by decide⟩

/-- Claim C5 (amended): the hook rewrites `req.url` to the trimmed
argument with its first `|uri.protocol| + |"://"| + |original Host|`
characters removed — `uri.protocol` carries the trailing colon, so this
is one character more than `scheme://original-host` — sets the `Host`
header to the new URL's host, and returns Redirect of the parsed URL;
since the upstream fetch uses the redirect URL and the mutated headers,
the example request still reaches upstream as `GET /v2/` with
`Host: upstream`. -/
theorem forward_rewrite_amended (urlArg : JStr) (req : ReqM) (uri : URLm)
    (hp : parseURLabs urlArg = some uri) :
    forwardHandler urlArg req =
      some ({ req with
                url := (trimL urlArg).drop
                  (uri.protocol.length + (jstr "://").length + req.host.length)
                host := uri.host },
            .vurl uri) ∧
    forwardRequest (jstr "http") ⟨jstr "GET", jstr "x", jstr "/api/u"⟩
        (some ⟨fun r =>
          match forwardHandler (jstr "https://upstream/v2/") r with
          | some pr => pr
          | none => (r, .vnull)⟩) 1 =
      [.pause, .inspectRequest 1,
       .fetchUpstream ⟨jstr "https:", jstr "upstream", jstr "/v2/", []⟩
         (jstr "GET") (jstr "upstream"),
       .resume] := by
  constructor
  · simp [forwardHandler, hp, Nat.add_assoc]
  · rfl

/-- Claim C5 amended witness: the general rewrite equation evaluated on
the example rule argument and request. -/
theorem forward_rewrite_amended_witness :
    forwardHandler (jstr "https://upstream/v2/")
        ⟨jstr "GET", jstr "x", jstr "/api/u"⟩ =
      some ({ method := jstr "GET", host := jstr "upstream"
              url := (trimL (jstr "https://upstream/v2/")).drop
                ((jstr "https:").length + (jstr "://").length + (jstr "x").length) },
            .vurl ⟨jstr "https:", jstr "upstream", jstr "/v2/", []⟩) :=
  (forward_rewrite_amended (jstr "https://upstream/v2/")
    ⟨jstr "GET", jstr "x", jstr "/api/u"⟩
    ⟨jstr "https:", jstr "upstream", jstr "/v2/", []⟩ (by decide)).1

/-! ## Theorems about the rule matcher -/

/-- A pattern with no `*` survives the split as a single segment. -/
theorem splitStar_no_star (p : JStr) (h : ¬ '*' ∈ p) : splitStar p = [p] := by
  induction p with
  | nil => rfl
  | cons a as ih =>
      have ha : ¬ a = '*' := fun hh => h (hh ▸ List.mem_cons_self a as)
      simp [splitStar, ha, ih (fun hh => h (List.mem_cons_of_mem a hh))]

/-- `JSON.stringify` keeps a printable non-quote non-backslash character
verbatim. -/
theorem jsonEscapeChar_plain (c : Char) (h : plainChar c = true) :
    jsonEscapeChar c = [c] := by
  simp only [plainChar, Bool.and_eq_true, Bool.not_eq_true',
    beq_eq_false_iff_ne, ne_eq] at h
  obtain ⟨⟨hble, hq⟩, hb⟩ := h
  have h32 : 32 ≤ c.toNat := Nat.le_of_ble_eq_true hble
  have h8 : ¬ c = '\x08' := fun hh => by subst hh; exact absurd h32 (by decide)
  have hc : ¬ c = '\x0c' := fun hh => by subst hh; exact absurd h32 (by decide)
  have hn : ¬ c = '\n' := fun hh => by subst hh; exact absurd h32 (by decide)
  have hr : ¬ c = '\r' := fun hh => by subst hh; exact absurd h32 (by decide)
  have ht : ¬ c = '\t' := fun hh => by subst hh; exact absurd h32 (by decide)
  simp [jsonEscapeChar, hq, hb, h8, hc, hn, hr, ht, Nat.not_lt.mpr h32]

/-- A segment of such characters is left unchanged by JSON escaping. -/
theorem jsonEscape_plain (p : JStr) (h : ∀ c ∈ p, plainChar c = true) :
    jsonEscape p = p := by
  induction p with
  | nil => rfl
  | cons a as ih =>
      have has := ih (fun c hc => h c (List.mem_cons_of_mem a hc))
      simp only [jsonEscape, List.map_cons, List.flatten_cons] at has ⊢
      rw [jsonEscapeChar_plain a (h a (List.mem_cons_self a as)), has]
      rfl

/-- A pattern carrying no scheme prefix is unchanged by the strip. -/
theorem stripScheme_id (p : JStr)
    (h1 : startsCI (jstr "https://") p = false)
    (h2 : startsCI (jstr "http://") p = false) :
    stripScheme p = p := by
  simp [stripScheme, h1, h2]

/-- A string of non-metacharacters parses to its literal tokens. -/
theorem regexParseF_lits (f : Nat) (p : JStr) (hf : p.length ≤ f)
    (h : ∀ c ∈ p, regexSpecial c = false) :
    regexParseF f p = some (p.map RTok.lit) := by
  induction f generalizing p with
  | zero =>
      cases p with
      | nil => rfl
      | cons a as => simp at hf
  | succ f ih =>
      cases p with
      | nil => rfl
      | cons a as =>
          have ha := h a (List.mem_cons_self a as)
          have h1 : ¬ a = '\\' := fun hh => by
            rw [hh] at ha; exact absurd ha (by decide)
          have h2 : ¬ a = '.' := fun hh => by
            rw [hh] at ha; exact absurd ha (by decide)
          have hlen : as.length ≤ f := by
            simp only [List.length_cons] at hf; omega
          simp only [regexParseF, if_neg h1, if_neg h2, ha, Bool.false_eq_true,
            if_false, ih as hlen (fun c hc => h c (List.mem_cons_of_mem a hc)),
            Option.map_some', List.map_cons]

/-- `regexParse` on a fully literal pattern. -/
theorem regexParse_lits (p : JStr) (h : ∀ c ∈ p, regexSpecial c = false) :
    regexParse p = some (p.map RTok.lit) :=
  regexParseF_lits p.length p (Nat.le_refl _) h

/-- Matching literal tokens at the head of the subject is the
starts-with test. -/
theorem matchHereF_lits (f : Nat) (p s : JStr)
    (hf : p.length + s.length < f) :
    matchHereF f (p.map RTok.lit) s = startsB p s := by
  induction f generalizing p s with
  | zero => omega
  | succ f ih =>
      cases p with
      | nil => rfl
      | cons c cs =>
          cases s with
          | nil => rfl
          | cons x xs =>
              simp only [List.map_cons, matchHereF, startsB]
              by_cases hxc : x = c
              · subst hxc
                have hlen : cs.length + xs.length < f := by
                  simp only [List.length_cons] at hf; omega
                simp [ih cs xs hlen]
              · have hcx : ¬ c = x := fun hh => hxc hh.symm
                simp [hxc, hcx]

/-- `matchHere` on literal tokens, with its canonical fuel. -/
theorem matchHere_lits (p s : JStr) :
    matchHere (p.map RTok.lit) s = startsB p s :=
  matchHereF_lits ((p.map RTok.lit).length + s.length + 1) p s
    (by simp [List.length_map])

/-- Unanchored search for literal tokens is the substring test. -/
theorem rtestF_lits (f : Nat) (p s : JStr) (hf : s.length < f) :
    rtestF f (p.map RTok.lit) s = containsB p s := by
  induction f generalizing s with
  | zero => omega
  | succ f ih =>
      cases s with
      | nil =>
          show (matchHere (p.map RTok.lit) [] || false) = containsB p []
          rw [matchHere_lits]
          rfl
      | cons x xs =>
          show (matchHere (p.map RTok.lit) (x :: xs) ||
              rtestF f (p.map RTok.lit) xs) = containsB p (x :: xs)
          have hlen : xs.length < f := by
            simp only [List.length_cons] at hf; omega
          rw [matchHere_lits, ih xs hlen]
          rfl

/-- `RegExp.test` of a fully literal pattern is the substring test. -/
theorem rtest_lits (p s : JStr) :
    rtest (p.map RTok.lit) s = containsB p s :=
  rtestF_lits (s.length + 1) p s (Nat.lt_succ_self _)

/-- Claim C7 counterexample: the compiled matcher for the pattern `a.b`
is the regex `a.b` — the JSON escaping of the source leaves the dot
active, so the matcher accepts `q/aXb`, while the regex-escaped matcher
of the claim (`a\.b`) rejects it. -/
theorem matcher_escape_counterexample :
    ruleMatch (jstr "a.b") (jstr "q") (jstr "/aXb") = true ∧
    ruleMatchSpec (jstr "a.b") (jstr "q") (jstr "/aXb") = false ∧
    createMatcherSrc (jstr "a.b") = jstr "a.b" ∧
    createMatcherSrcSpec (jstr "a.b") = jstr "a\\.b" := by
  refine ⟨by decide, by decide, by decide, by decide⟩

/-- Claim C7 (amended): string patterns are normalized by stripping a
leading `http://`/`https://`, splitting on `*` and rejoining with
`.*?`, but each literal segment is JSON-string-escaped — which keeps
every printable non-quote non-backslash character, metacharacters
included, verbatim — not regex-escaped; the compiled regex is tested
without anchoring against `host ++ url`: on patterns free of regex
metacharacters it is exactly the unanchored substring test. -/
theorem matcher_json_escape_amended (p host url : JStr)
    (h1 : startsCI (jstr "https://") p = false)
    (h2 : startsCI (jstr "http://") p = false)
    (hstar : ¬ '*' ∈ p)
    (hplain : ∀ c ∈ p, plainChar c = true) :
    createMatcherSrc p = p ∧
    ((∀ c ∈ p, regexSpecial c = false) →
      ruleMatch p host url = containsB p (host ++ url)) := by
  have hsrc : createMatcherSrc p = p := by
    simp only [createMatcherSrc, stripScheme_id p h1 h2,
      splitStar_no_star p hstar, List.map_cons, List.map_nil]
    rw [jsonEscape_plain p hplain]
    simp [List.intercalate]
  refine ⟨hsrc, ?_⟩
  intro hspec
  simp only [ruleMatch, hsrc, regexParse_lits p hspec, rtest_lits]

/-- Claim C7 amended witness: the pattern `a/b` compiles to itself and
matches `q` + `/xa/bz` exactly as a substring test. -/
theorem matcher_json_escape_amended_witness :
    createMatcherSrc (jstr "a/b") = jstr "a/b" ∧
    ruleMatch (jstr "a/b") (jstr "q") (jstr "/xa/bz") =
      containsB (jstr "a/b") (jstr "q" ++ jstr "/xa/bz") := by
  have h := matcher_json_escape_amended (jstr "a/b") (jstr "q")
    (jstr "/xa/bz") (by decide) (by decide) (by decide) (by decide)
  exact ⟨h.1, h.2 (by decide)⟩

/-! ## Theorems about the inspector flush timer -/

/-- Claim C9: two journal updates 1 ms apart (a burst) each schedule
their own 4000 ms flush timeout and neither is cleared — the state after
the burst holds two pending `index.json` writes, not one.  (Each write
is indeed deferred by more than 2000 ms, but the burst produces one
flush per update: after the first call `nextSaveTime` holds the small
relative value 4000 while `Date.now()` is epoch-scale, so `timeLeft` is
hugely negative on every later update and the `clearTimeout` branch,
which needs `timeLeft > 2000`, is unreachable.) -/
theorem inspector_burst_two_flushes :
    (saveEntries 1000000000006
        (saveEntries 1000000000005 (inspInit 1000000000000))).scheduled =
      [(1, 1000000004006), (0, 1000000004005)] ∧
    (saveEntries 1000000000006
        (saveEntries 1000000000005 (inspInit 1000000000000))).scheduled.length
      = 2 := by
  constructor <;> rfl

end NxyProxy
